import Mathlib

/-!
Verification of the `hurl` command-line HTTP client core: the parameter
mini-language parser, request assembly, auth resolution, and session
persistence.  Definitions are shallow embeddings of the Rust source in
`src/`; where a function's body is absent from the provided sources (only
its declaration, callers, or documentation are present), the definition is
modelled from the specification and its doc comment says so.
-/

namespace Hurl

/-- The seven typed parameter variants, from `src/app.rs` (`enum Parameter`).
Each variant corresponds to one separator: `:` Header, `=` Data, `:=`
RawJsonData, `==` Query, `@` FormFile, `=@` DataFile, `:=@` RawJsonDataFile. -/
inductive Parameter where
  | Header (key value : String)
  | Data (key value : String)
  | RawJsonData (key value : String)
  | Query (key value : String)
  | FormFile (key filename : String)
  | DataFile (key filename : String)
  | RawJsonDataFile (key filename : String)
deriving DecidableEq, Repr

/-- Separator characters of the parameter grammar (`:`, `=`, `@`). -/
def isSepChar (c : Char) : Bool :=
  c = ':' || c = '=' || c = '@'

/-- Modelled from the spec: the escape scan of `parse_param` (the `Token`
tokenizer in `src/app.rs` whose body is missing).  A backslash immediately
followed by a separator character is consumed as two input characters and
recorded as that one character marked escaped (`true`); every other
character is recorded unescaped (`false`). -/
def markEscapes : List Char → List (Char × Bool)
  | [] => []
  | [c] => [(c, false)]
  | c :: d :: rest =>
    if c = '\\' ∧ isSepChar d then (d, true) :: markEscapes rest
    else (c, false) :: markEscapes (d :: rest)

/-- The characters a marked list stands for, escapes resolved. -/
def emitted (mcs : List (Char × Bool)) : List Char :=
  mcs.map Prod.fst

/-- Try to match one separator (given as its character list) at the head of
a marked character list; every matched character must be unescaped.  Returns
the remainder after the separator on success. -/
def matchSepAt : List (Char × Bool) → List Char → Option (List (Char × Bool))
  | mcs, [] => some mcs
  | [], _ :: _ => none
  | (c, esc) :: mcs, s :: srest =>
    if esc = false ∧ c = s then matchSepAt mcs srest else none

/-- Modelled from the spec: the candidate separators in descending length
order, `:=@`, `=@`, `:=`, `==`, `:`, `=`, `@`. -/
def separators : List (List Char) :=
  [[':', '=', '@'], ['=', '@'], [':', '='], ['=', '='], [':'], ['='], ['@']]

/-- Try all candidate separators at the head of a marked list, longest
first, returning the winning separator and the remainder. -/
def trySeps (mcs : List (Char × Bool)) : Option (List Char × List (Char × Bool)) :=
  separators.findSome? fun sep => (matchSepAt mcs sep).map fun rest => (sep, rest)

/-- Modelled from the spec: scan left to right for the first position where
any candidate separator matches; split into key, separator, and value. -/
def splitParam : List (Char × Bool) → Option (List Char × List Char × List Char)
  | [] => none
  | (c, e) :: rest =>
    match trySeps ((c, e) :: rest) with
    | some (sep, after) => some ([], sep, emitted after)
    | none => (splitParam rest).map fun kv => (c :: kv.1, kv.2.1, kv.2.2)

/-- Construct the Parameter variant determined by the separator. -/
def mkParameter (sep : List Char) (key value : List Char) : Parameter :=
  if sep = [':', '=', '@'] then .RawJsonDataFile ⟨key⟩ ⟨value⟩
  else if sep = ['=', '@'] then .DataFile ⟨key⟩ ⟨value⟩
  else if sep = [':', '='] then .RawJsonData ⟨key⟩ ⟨value⟩
  else if sep = ['=', '='] then .Query ⟨key⟩ ⟨value⟩
  else if sep = [':'] then .Header ⟨key⟩ ⟨value⟩
  else if sep = ['='] then .Data ⟨key⟩ ⟨value⟩
  else .FormFile ⟨key⟩ ⟨value⟩

/-- The error taxonomy, from `src/errors.rs` (`enum Error`).  The JSON error
carries a coarse category and the IO error the underlying kind; the
constructor named `IO` in the source is called `ioError` here. -/
inductive JsonCat where
  | syntaxCat | dataCat | eofCat | ioCat
deriving DecidableEq, Repr

inductive IOKind where
  | notFound | other
deriving DecidableEq, Repr

inductive Error where
  | ParameterMissingSeparator (s : String)
  | MissingUrlAndCommand
  | NotFormButHasFormFile
  | ClientSerialization
  | ClientTimeout
  | ClientWithStatus (status : Nat)
  | ClientOther
  | SerdeJson (cat : JsonCat)
  | ioError (kind : IOKind)
  | UrlParseError
  | SyntaxLoadError (typ : String)
deriving DecidableEq, Repr

/-- Modelled from the spec: `parse_param` from `src/app.rs` (its body is
missing from the provided sources; only the `Parameter` and `Token`
declarations and its doc comment are present).  Scan the raw string left to
right treating backslash-escaped separator characters as literals; at the
first position where any candidate separator matches, split using the
longest candidate matching there; fail with `ParameterMissingSeparator` when
no separator is found. -/
def parse_param (raw : String) : Except Error Parameter :=
  match splitParam (markEscapes raw.toList) with
  | none => .error (.ParameterMissingSeparator raw)
  | some (k, sep, v) => .ok (mkParameter sep k v)

/-- Modelled from the spec: `Parameter::is_data` (used by `src/main.rs` for
method inference; its body is missing from the provided sources).  True for
the Data-bearing variants Data, RawJsonData, DataFile and RawJsonDataFile. -/
def Parameter.is_data : Parameter → Bool
  | .Data _ _ | .RawJsonData _ _ | .DataFile _ _ | .RawJsonDataFile _ _ => true
  | _ => false

/-- Modelled from the spec: `Parameter::is_form_file` (used by
`src/client.rs` for the multipart check; its body is missing from the
provided sources).  True exactly for the FormFile variant. -/
def Parameter.is_form_file : Parameter → Bool
  | .FormFile _ _ => true
  | _ => false

/-- Holds the data of one method subcommand, from `src/app.rs`
(`struct MethodData`). -/
structure MethodData where
  url : String
  parameters : List Parameter
deriving Repr

/-- The method subcommand, from `src/app.rs` (`enum Method`). -/
inductive Method where
  | HEAD (d : MethodData)
  | GET (d : MethodData)
  | PUT (d : MethodData)
  | POST (d : MethodData)
  | PATCH (d : MethodData)
  | DELETE (d : MethodData)
deriving Repr

/-- From `src/app.rs` (`Method::data`). -/
def Method.data : Method → MethodData
  | .HEAD x => x
  | .GET x => x
  | .PUT x => x
  | .POST x => x
  | .PATCH x => x
  | .DELETE x => x

/-- The subset of `reqwest::Method` actually used by the client. -/
inductive ReqMethod where
  | HEAD | GET | PUT | POST | PATCH | DELETE
deriving DecidableEq, Repr

/-- Modelled from the spec: the `From<&Method> for reqwest::Method`
conversion used by `perform_method` (its body is missing from the
provided sources).  Each subcommand maps to the HTTP method of the same
name. -/
def methodToReq : Method → ReqMethod
  | .HEAD _ => .HEAD
  | .GET _ => .GET
  | .PUT _ => .PUT
  | .POST _ => .POST
  | .PATCH _ => .PATCH
  | .DELETE _ => .DELETE

/-- The method chosen by `src/main.rs` lines 39-52: an explicit subcommand
is used as given; otherwise POST when any Data-bearing parameter is present
and GET otherwise. -/
def chooseMethod (cmd : Option Method) (parameters : List Parameter) : ReqMethod :=
  match cmd with
  | some m => methodToReq m
  | none => if parameters.any Parameter.is_data then .POST else .GET

/-- JSON values as used for request bodies and session records.  Numeric
values are modelled as integers: no claim involves fractional numbers, and
floating point is outside the embedding. -/
inductive Json where
  | null
  | bool (b : Bool)
  | num (n : Int)
  | str (s : String)
  | arr (xs : List Json)
  | obj (fields : List (String × Json))

/-- Whitespace skipping for the JSON parser. -/
def skipWs (cs : List Char) : List Char :=
  cs.dropWhile fun c => c = ' ' || c = '\n' || c = '\t' || c = '\r'

/-- Decimal digits to a natural number. -/
def digitsToNat (ds : List Char) : Nat :=
  ds.foldl (fun a c => a * 10 + (c.toNat - 48)) 0

/-- Parse the remainder of a JSON string literal (after the opening quote),
resolving the standard escapes. -/
def parseStrChars : List Char → Option (List Char × List Char)
  | [] => none
  | '"' :: rest => some ([], rest)
  | '\\' :: c :: rest =>
    let u : Char := if c = 'n' then '\n' else if c = 't' then '\t' else if c = 'r' then '\r' else c
    (parseStrChars rest).map fun p => (u :: p.1, p.2)
  | c :: rest => (parseStrChars rest).map fun p => (c :: p.1, p.2)

mutual

/-- Modelled from the spec: JSON text parsing for RawJsonData and
RawJsonDataFile values (done by `serde_json` in the source, which is not
under `src/`).  Fuel-based recursive descent; numbers are integers. -/
def parseVal : Nat → List Char → Option (Json × List Char)
  | 0, _ => none
  | fuel + 1, cs =>
    match skipWs cs with
    | [] => none
    | 'n' :: 'u' :: 'l' :: 'l' :: rest => some (.null, rest)
    | 't' :: 'r' :: 'u' :: 'e' :: rest => some (.bool true, rest)
    | 'f' :: 'a' :: 'l' :: 's' :: 'e' :: rest => some (.bool false, rest)
    | '"' :: rest => (parseStrChars rest).map fun p => (.str ⟨p.1⟩, p.2)
    | '[' :: rest =>
      (parseArrItems fuel (skipWs rest)).map fun p => (.arr p.1, p.2)
    | '{' :: rest =>
      (parseObjItems fuel (skipWs rest)).map fun p => (.obj p.1, p.2)
    | '-' :: c :: rest =>
      if c.isDigit then
        let p := (c :: rest).span Char.isDigit
        some (.num (-(digitsToNat p.1 : Int)), p.2)
      else none
    | c :: rest =>
      if c.isDigit then
        let p := (c :: rest).span Char.isDigit
        some (.num (digitsToNat p.1 : Int), p.2)
      else none

/-- Array items after the opening bracket (whitespace already skipped). -/
def parseArrItems : Nat → List Char → Option (List Json × List Char)
  | 0, _ => none
  | fuel + 1, cs =>
    match cs with
    | ']' :: rest => some ([], rest)
    | _ =>
      match parseVal fuel cs with
      | none => none
      | some (v, r) =>
        match skipWs r with
        | ',' :: r2 =>
          (parseArrItems fuel (skipWs r2)).map fun p => (v :: p.1, p.2)
        | ']' :: r2 => some ([v], r2)
        | _ => none

/-- Object members after the opening brace (whitespace already skipped). -/
def parseObjItems : Nat → List Char → Option (List (String × Json) × List Char)
  | 0, _ => none
  | fuel + 1, cs =>
    match cs with
    | '\x7d' :: rest => some ([], rest)
    | '"' :: rest =>
      match parseStrChars rest with
      | none => none
      | some (k, r) =>
        match skipWs r with
        | ':' :: r2 =>
          match parseVal fuel (skipWs r2) with
          | none => none
          | some (v, r3) =>
            match skipWs r3 with
            | ',' :: r4 =>
              (parseObjItems fuel (skipWs r4)).map fun p => ((⟨k⟩, v) :: p.1, p.2)
            | '\x7d' :: r4 => some ([(⟨k⟩, v)], r4)
            | _ => none
        | _ => none
    | _ => none

end

/-- Parse a complete JSON text; the whole input must be consumed. -/
def jsonParse (s : String) : Option Json :=
  match parseVal (s.length + 2) s.toList with
  | some (v, rest) => if skipWs rest = [] then some v else none
  | none => none

/-- String escaping for JSON serialization. -/
def escapeJsonChar (c : Char) : List Char :=
  if c = '"' then ['\\', '"']
  else if c = '\\' then ['\\', '\\']
  else if c = '\n' then ['\\', 'n']
  else if c = '\t' then ['\\', 't']
  else if c = '\r' then ['\\', 'r']
  else [c]

/-- A JSON string literal with quotes and escapes. -/
def jsonStrLit (s : String) : String :=
  "\"" ++ ⟨s.toList.foldr (fun c acc => escapeJsonChar c ++ acc) []⟩ ++ "\""

mutual

/-- Compact JSON serialization, as `serde_json::to_string` produces for the
request body: no whitespace, keys in the stored order. -/
def jsonToString : Json → String
  | .null => "null"
  | .bool true => "true"
  | .bool false => "false"
  | .num n => toString n
  | .str s => jsonStrLit s
  | .arr xs => "[" ++ jsonArrToString xs ++ "]"
  | .obj fs => "\x7b" ++ jsonObjToString fs ++ "\x7d"

/-- Comma-joined serialization of array elements. -/
def jsonArrToString : List Json → String
  | [] => ""
  | [x] => jsonToString x
  | x :: y :: xs => jsonToString x ++ "," ++ jsonArrToString (y :: xs)

/-- Comma-joined serialization of object members. -/
def jsonObjToString : List (String × Json) → String
  | [] => ""
  | [kv] => jsonStrLit kv.1 ++ ":" ++ jsonToString kv.2
  | kv :: kv2 :: xs => jsonStrLit kv.1 ++ ":" ++ jsonToString kv.2 ++ "," ++ jsonObjToString (kv2 :: xs)

end

/-- The persisted session record, from `src/session.rs` (`struct Session`).
The Rust `HashMap` of headers is modelled as an association list and the
`PathBuf` as a string. -/
structure Session where
  path : String
  name : String
  host : String
  auth : Option String
  token : Option String
  headers : List (String × String)
  cookies : List (String × String)
deriving DecidableEq, Repr

/-- Encoding of an optional string field for session serialization. -/
def encodeOptStr : Option String → Json
  | none => .null
  | some s => .str s

/-- Decoding of an optional string field. -/
def decodeOptStr : Json → Option (Option String)
  | .null => some none
  | .str s => some (some s)
  | _ => none

/-- Encoding of a string-to-string association list as a JSON object. -/
def encodeStrPairs (l : List (String × String)) : Json :=
  .obj (l.map fun kv => (kv.1, .str kv.2))

/-- Decoding of the members of a JSON object as string pairs. -/
def decodeStrMembers : List (String × Json) → Option (List (String × String))
  | [] => some []
  | (k, .str v) :: rest => (decodeStrMembers rest).map fun l => (k, v) :: l
  | _ => none

/-- Decoding of a string-to-string association list. -/
def decodeStrPairs : Json → Option (List (String × String))
  | .obj fs => decodeStrMembers fs
  | _ => none

/-- Encoding of the ordered cookie list as a JSON array of two-element
arrays. -/
def encodeCookies (l : List (String × String)) : Json :=
  .arr (l.map fun kv => .arr [.str kv.1, .str kv.2])

/-- Decoding of the ordered cookie list. -/
def decodeCookieItems : List Json → Option (List (String × String))
  | [] => some []
  | .arr [.str n, .str v] :: rest => (decodeCookieItems rest).map fun l => (n, v) :: l
  | _ => none

/-- Decoding of a cookie array. -/
def decodeCookies : Json → Option (List (String × String))
  | .arr xs => decodeCookieItems xs
  | _ => none

/-- Modelled from the spec: serialization of a session record for
`Session::save` (done by `serde_json` in the source, which is not under
`src/`; the on-disk format is an implementation detail that must round-trip
all fields). -/
def sessionToJson (s : Session) : Json :=
  .obj [("path", .str s.path), ("name", .str s.name), ("host", .str s.host),
        ("auth", encodeOptStr s.auth), ("token", encodeOptStr s.token),
        ("headers", encodeStrPairs s.headers), ("cookies", encodeCookies s.cookies)]

/-- Field lookup in a serialized object, by key. -/
def lookupField (fs : List (String × Json)) (k : String) : Option Json :=
  match fs with
  | [] => none
  | (k', v) :: rest => if k' = k then some v else lookupField rest k

/-- Modelled from the spec: deserialization of a session record for
`Session::load` (done by `serde_json` in the source, which is not under
`src/`). -/
def sessionFromJson : Json → Option Session
  | .obj fs => do
    let .str path ← lookupField fs "path" | none
    let .str name ← lookupField fs "name" | none
    let .str host ← lookupField fs "host" | none
    let auth ← (lookupField fs "auth").bind decodeOptStr
    let token ← (lookupField fs "token").bind decodeOptStr
    let headers ← (lookupField fs "headers").bind decodeStrPairs
    let cookies ← (lookupField fs "cookies").bind decodeCookies
    pure ⟨path, name, host, auth, token, headers, cookies⟩
  | _ => none

/-- The session file store: a map from file path to stored record, the
record itself kept as its serialized JSON value (the byte format of the
file is an implementation detail of `serde_json`). -/
def Store := List (String × Json)

/-- Lookup in the session file store. -/
def storeGet (st : Store) (k : String) : Option Json :=
  match st with
  | [] => none
  | (k', v) :: rest => if k' = k then some v else storeGet rest k

/-- Write to the session file store, replacing an existing file. -/
def storeSet (st : Store) (k : String) (v : Json) : Store :=
  match st with
  | [] => [(k, v)]
  | (k', v') :: rest => if k' = k then (k, v) :: rest else (k', v') :: storeSet rest k v

/-- Modelled from the spec: the deterministic session file path derived
from name and host (`src/directories.rs` is missing from the provided
sources). -/
def sessionPath (name host : String) : String :=
  name ++ "__" ++ host

/-- A fresh, empty session for a name and host, as `get_or_create` builds
when no file exists. -/
def freshSession (name host : String) : Session :=
  ⟨sessionPath name host, name, host, none, none, [], []⟩

/-- Modelled from the spec: `Session::get_or_create` from `src/session.rs`
(its body is missing from the provided sources).  Loads the record stored
at the deterministic path for name and host, else returns a fresh session;
the file is created only on first save. -/
def get_or_create (st : Store) (name host : String) : Session :=
  match storeGet st (sessionPath name host) with
  | some j =>
    match sessionFromJson j with
    | some s => s
    | none => freshSession name host
  | none => freshSession name host

/-- The remainder after the first `://`, when one occurs. -/
def afterScheme : List Char → Option (List Char)
  | [] => none
  | ':' :: '/' :: '/' :: rest => some rest
  | _ :: rest => afterScheme rest

/-- Modelled from the spec: the host component used to key sessions
(`App::host` is missing from the provided sources): the authority part of
the raw URL, scheme stripped, cut at the first slash or colon. -/
def extractHost (url : String) : String :=
  let body := (afterScheme url.toList).getD url.toList
  ⟨body.takeWhile fun c => c != '/' && c != ':'⟩

/-- The effective authentication credential. -/
inductive AuthHeader where
  | basic (creds : String)
  | bearer (tok : String)
deriving DecidableEq, Repr

/-- Modelled from the spec: auth resolution (`handle_auth` and the session
part of `handle_session` in `src/client.rs` are missing from the provided
sources).  Precedence, highest first: explicit bearer token, explicit
basic-auth, session-stored bearer token, session-stored basic-auth, none. -/
def resolveAuth (auth token : Option String) (session : Option Session) : Option AuthHeader :=
  match token with
  | some t => some (.bearer t)
  | none =>
    match auth with
    | some a => some (.basic a)
    | none =>
      match session with
      | some s =>
        match s.token with
        | some t => some (.bearer t)
        | none =>
          match s.auth with
          | some a => some (.basic a)
          | none => none
      | none => none

/-- The Authorization header value for a resolved credential.  The basic
credential is carried verbatim; its base64 transport encoding is an
implementation detail below the level of the data model. -/
def authValue : AuthHeader → String
  | .basic creds => "Basic " ++ creds
  | .bearer tok => "Bearer " ++ tok

/-- Hex digit for percent-encoding. -/
def hexDigit (n : Nat) : Char :=
  if n < 10 then Char.ofNat (48 + n) else Char.ofNat (55 + n % 6 + (n - 10) / 6 * 0)

/-- Percent-encoding of one character: unreserved characters pass through,
everything else becomes a percent escape of its code point modulo 256. -/
def urlEncodeChar (c : Char) : List Char :=
  if c.isAlphanum || c = '-' || c = '.' || c = '_' || c = '~' then [c]
  else ['%', hexDigit (c.toNat % 256 / 16), hexDigit (c.toNat % 16)]

/-- URL-encoding of a string. -/
def urlEncode (s : String) : String :=
  ⟨s.toList.foldr (fun c acc => urlEncodeChar c ++ acc) []⟩

/-- True when the pattern occurs as a contiguous run of the list. -/
def listHasInfix (pat : List Char) : List Char → Bool
  | [] => pat.isEmpty
  | c :: rest => pat.isPrefixOf (c :: rest) || listHasInfix pat rest

/-- True when the raw URL already names a transport. -/
def hasTransport (s : String) : Bool :=
  listHasInfix "://".toList s.toList

/-- Modelled from the spec: URL construction (`parse` in `src/client.rs` is
missing from the provided sources).  Prepend `http://`, or `https://` under
the secure flag, when the raw URL lacks a transport; append the Query
parameters URL-encoded and `&`-joined, after any `?` already present. -/
def buildUrl (secure : Bool) (raw : String) (parameters : List Parameter) : String :=
  let base := if hasTransport raw then raw
    else (if secure then "https://" else "http://") ++ raw
  let qs := parameters.filterMap fun p =>
    match p with
    | .Query k v => some (urlEncode k ++ "=" ++ urlEncode v)
    | _ => none
  match qs with
  | [] => base
  | _ => base ++ (if base.toList.contains '?' then "&" else "?") ++ String.intercalate "&" qs

/-- The body of the assembled request. -/
inductive Body where
  | empty
  | jsonBody (fields : List (String × Json))
  | formBody (fields : List (String × String))
  | multipartBody (parts : List (String × String))

/-- The errors body construction can produce: a coarse JSON category or an
IO kind, per the spec's error taxonomy. -/
inductive BodyError where
  | serdeFail (cat : JsonCat)
  | ioFail (kind : IOKind)
deriving DecidableEq, Repr

/-- Embedding of a body-construction error into the error taxonomy. -/
def BodyError.toError : BodyError → Error
  | .serdeFail c => .SerdeJson c
  | .ioFail k => .ioError k

/-- The file system visible to DataFile, RawJsonDataFile and FormFile
reads: a map from filename to contents. -/
def FileSystem := String → Option String

/-- Lexicographic order on strings by code point, the key order of the
source's `BTreeMap`. -/
def strLtB : List Char → List Char → Bool
  | [], [] => false
  | [], _ :: _ => true
  | _ :: _, [] => false
  | a :: as, b :: bs =>
    if a.toNat < b.toNat then true
    else if b.toNat < a.toNat then false
    else strLtB as bs

/-- Insertion into a key-sorted association list, replacing on an equal
key: the ordered-key JSON object of the spec (a `BTreeMap` in the source). -/
def insertSorted (fields : List (String × Json)) (k : String) (v : Json) : List (String × Json) :=
  match fields with
  | [] => [(k, v)]
  | (k', v') :: rest =>
    if k = k' then (k, v) :: rest
    else if strLtB k.toList k'.toList then (k, v) :: (k', v') :: rest
    else (k', v') :: insertSorted rest k v

/-- One step of JSON body construction: fold a parameter into the ordered
field map.  Data and DataFile contribute string values (the file's
contents for DataFile); RawJsonData and RawJsonDataFile contribute parsed
JSON values; other variants contribute nothing. -/
def addJsonField (fs : FileSystem) (acc : List (String × Json)) :
    Parameter → Except BodyError (List (String × Json))
  | .Data k v => .ok (insertSorted acc k (.str v))
  | .DataFile k f =>
    match fs f with
    | some c => .ok (insertSorted acc k (.str c))
    | none => .error (.ioFail .notFound)
  | .RawJsonData k v =>
    match jsonParse v with
    | some j => .ok (insertSorted acc k j)
    | none => .error (.serdeFail .syntaxCat)
  | .RawJsonDataFile k f =>
    match fs f with
    | some c =>
      match jsonParse c with
      | some j => .ok (insertSorted acc k j)
      | none => .error (.serdeFail .syntaxCat)
    | none => .error (.ioFail .notFound)
  | _ => .ok acc

/-- The ordered JSON body fields of a parameter list. -/
def jsonFieldsOf (fs : FileSystem) (parameters : List Parameter) :
    Except BodyError (List (String × Json)) :=
  parameters.foldlM (addJsonField fs) []

/-- True for the variants that become URL-encoded form fields. -/
def Parameter.is_form_field : Parameter → Bool
  | .Data _ _ | .DataFile _ _ => true
  | _ => false

/-- The URL-encoded form fields of a parameter list: Data values verbatim,
DataFile values read from the file. -/
def formFieldsOf (fs : FileSystem) : List Parameter → Except BodyError (List (String × String))
  | [] => .ok []
  | .Data k v :: rest => (formFieldsOf fs rest).map fun l => (k, v) :: l
  | .DataFile k f :: rest =>
    match fs f with
    | some c => (formFieldsOf fs rest).map fun l => (k, c) :: l
    | none => .error (.ioFail .notFound)
  | _ :: rest => formFieldsOf fs rest

/-- The multipart parts of a parameter list: FormFile and DataFile parts
carry the file contents, Data parts the literal value. -/
def multipartsOf (fs : FileSystem) : List Parameter → Except BodyError (List (String × String))
  | [] => .ok []
  | .Data k v :: rest => (multipartsOf fs rest).map fun l => (k, v) :: l
  | .DataFile k f :: rest =>
    match fs f with
    | some c => (multipartsOf fs rest).map fun l => (k, c) :: l
    | none => .error (.ioFail .notFound)
  | .FormFile k f :: rest =>
    match fs f with
    | some c => (multipartsOf fs rest).map fun l => (k, c) :: l
    | none => .error (.ioFail .notFound)
  | _ :: rest => multipartsOf fs rest

/-- Modelled from the spec: `handle_parameters` from `src/client.rs` (its
body is missing from the provided sources).  Multipart when any FormFile is
present; else a URL-encoded form body when form mode is set and a Data or
DataFile parameter is present; else a JSON body when any Data-bearing
parameter is present; else no body. -/
def handle_parameters (form isMultipart : Bool) (parameters : List Parameter)
    (fs : FileSystem) : Except BodyError Body :=
  if isMultipart then (multipartsOf fs parameters).map .multipartBody
  else if form && parameters.any Parameter.is_form_field then
    (formFieldsOf fs parameters).map .formBody
  else if parameters.any Parameter.is_data then
    (jsonFieldsOf fs parameters).map .jsonBody
  else .ok .empty

/-- Modelled from the spec: the session-mutation half of `handle_session`
from `src/client.rs` (its body is missing from the provided sources).  When
the update flag is set (the invocation is not read-only) the session
remembers the explicitly supplied credentials for later persistence;
otherwise the session is left untouched. -/
def handle_session (upd : Bool) (auth token : Option String) :
    Option Session → Option Session
  | none => none
  | some s =>
    if upd then
      some { s with
        auth := match auth with | some a => some a | none => s.auth,
        token := match token with | some t => some t | none => s.token }
    else some s

/-- Replace-or-append update of a header association list. -/
def updateAssoc (l : List (String × String)) (k v : String) : List (String × String) :=
  if l.any (fun kv => kv.1 = k) then
    l.map fun kv => if kv.1 = k then (k, v) else kv
  else l ++ [(k, v)]

/-- The Header parameters of a parameter list, in order. -/
def headerParams (parameters : List Parameter) : List (String × String) :=
  parameters.filterMap fun p =>
    match p with
    | .Header k v => some (k, v)
    | _ => none

/-- The single Cookie header value for the session's cookies, insertion
order preserved. -/
def cookieHeaderValue (cookies : List (String × String)) : String :=
  String.intercalate "; " (cookies.map fun kv => kv.1 ++ "=" ++ kv.2)

/-- Modelled from the spec: the header merge of request assembly (spread
over `handle_session` and `handle_parameters` in the source, both missing).
Start from session headers, overlay Header parameters (explicit arguments
win on key collision), append the resolved Authorization header, then the
session cookies as one Cookie header. -/
def mergeHeaders (session : Option Session) (parameters : List Parameter)
    (authHdr : Option AuthHeader) : List (String × String) :=
  let base := match session with
    | some s => s.headers
    | none => []
  let withHdrs := (headerParams parameters).foldl (fun acc kv => updateAssoc acc kv.1 kv.2) base
  let withAuth := match authHdr with
    | some a => withHdrs ++ [("Authorization", authValue a)]
    | none => withHdrs
  match session with
  | some s => if s.cookies.isEmpty then withAuth else withAuth ++ [("Cookie", cookieHeaderValue s.cookies)]
  | none => withAuth

/-- The assembler's output: final URL, method, ordered headers, body. -/
structure RequestDescriptor where
  method : ReqMethod
  url : String
  headers : List (String × String)
  body : Body

/-- The request-assembly part of `perform` from `src/client.rs` lines
27-56, everything before the send: build the URL, reject a FormFile
without form mode, merge the session, build the body, resolve auth.  The
URL build, session merge, body build and auth steps are modelled from the
spec (their bodies are missing from the provided sources); the order of
steps and the multipart check are the source's. -/
def assembleRequest (form secure upd : Bool) (auth token : Option String)
    (session : Option Session) (method : ReqMethod) (rawUrl : String)
    (parameters : List Parameter) (fs : FileSystem) :
    Except Error (RequestDescriptor × Option Session) :=
  let url := buildUrl secure rawUrl parameters
  let isMultipart := parameters.any Parameter.is_form_file
  if isMultipart && !form then .error .NotFormButHasFormFile
  else
    let session' := handle_session upd auth token session
    match handle_parameters form isMultipart parameters fs with
    | .error e => .error e.toError
    | .ok body =>
      let authHdr := resolveAuth auth token session
      .ok (⟨method, url, mergeHeaders session parameters authHdr, body⟩, session')

/-- The transport's answer: status, headers, body, per the spec's transport
boundary. -/
structure Response where
  status : Nat
  headers : List (String × String)
  body : String
deriving DecidableEq, Repr

/-- A transport: receives the assembled request, returns a response or a
client error. -/
def Transport := RequestDescriptor → Except Error Response

/-- The name=value part of a Set-Cookie header value: the portion before
the first semicolon, split at its first equals sign. -/
def cookieFromSetCookie (v : String) : Option (String × String) :=
  let firstPart := (v.splitOn ";").headD v
  match firstPart.toList.span (fun c => c != '=') with
  | (pre, '=' :: post) => some (⟨pre⟩, ⟨post⟩)
  | _ => none

/-- Merge one cookie into the cookie list: replace the value on a name
match, else append. -/
def mergeCookie (cookies : List (String × String)) (nv : String × String) :
    List (String × String) :=
  if cookies.any (fun c => c.1 = nv.1) then
    cookies.map fun c => if c.1 = nv.1 then nv else c
  else cookies ++ [nv]

/-- Modelled from the spec: `Session::update_with_response` from
`src/session.rs` (its body is missing from the provided sources).  Extract
the Set-Cookie headers of the response and merge them into the session's
cookie list by name; credentials were already recorded before the request
and are not re-derived. -/
def Session.update_with_response (s : Session) (resp : Response) : Session :=
  let setCookies := resp.headers.filterMap fun kv =>
    if kv.1 = "set-cookie" then cookieFromSetCookie kv.2 else none
  { s with cookies := setCookies.foldl mergeCookie s.cookies }

/-- The session effect of `handle_response` from `src/main.rs` lines
104-110: unless the invocation is read-only, a present session is updated
with the response and saved to its file; otherwise session and store are
untouched.  (The response printing of `handle_response` has no bearing on
any claim and is not modelled.) -/
def handle_response (read_only : Bool) (session : Option Session) (resp : Response)
    (st : Store) : Option Session × Store :=
  if read_only then (session, st)
  else
    match session with
    | none => (none, st)
    | some s =>
      let s' := s.update_with_response resp
      (some s', storeSet st s'.path (sessionToJson s'))

/-- The raw URL of the invocation: the subcommand's URL when a method was
given, else the positional URL (`src/main.rs` lines 39-52). -/
def rawUrlOf (cmd : Option Method) (url : Option String) : String :=
  match cmd with
  | some m => m.data.url
  | none => url.getD ""

/-- The effective parameter list of the invocation (`src/main.rs` lines
39-52). -/
def paramsOf (cmd : Option Method) (parameters : List Parameter) : List Parameter :=
  match cmd with
  | some m => m.data.parameters
  | none => parameters

/-- The whole invocation, embedding `main` from `src/main.rs`: validate,
load the named session, choose the method, assemble and send the request,
and hand the response to `handle_response`.  Returns the outcome together
with the final in-memory session and the final session file store. -/
def runInvocation (form secure read_only : Bool) (auth token : Option String)
    (cmd : Option Method) (url : Option String) (parameters : List Parameter)
    (sessionName : Option String) (st : Store) (fs : FileSystem)
    (transport : Transport) :
    Except Error (RequestDescriptor × Response) × Option Session × Store :=
  if cmd.isNone && url.isNone then (.error .MissingUrlAndCommand, none, st)
  else
    let rawUrl := rawUrlOf cmd url
    let effParams := paramsOf cmd parameters
    let session := sessionName.map fun n => get_or_create st n (extractHost rawUrl)
    let method := chooseMethod cmd parameters
    match assembleRequest form secure (!read_only) auth token session method rawUrl effParams fs with
    | .error e => (.error e, session, st)
    | .ok (desc, session') =>
      match transport desc with
      | .error e => (.error e, session', st)
      | .ok resp =>
        let (session'', st') := handle_response read_only session' resp st
        (.ok (desc, resp), session'', st')

/-- Escape every separator character of a string with a backslash; the
inverse direction of the parser's escape resolution. -/
def escapeChars : List Char → List Char
  | [] => []
  | c :: rest => if isSepChar c then '\\' :: c :: escapeChars rest else c :: escapeChars rest

/-- String form of `escapeChars`. -/
def escapeSeps (s : String) : String :=
  ⟨escapeChars s.toList⟩

/-- The escape marking of one character when it occurs unescaped in the
input. -/
def plainMark (c : Char) : Char × Bool :=
  (c, isSepChar c)

section ParserLemmas

/-- A successful separator match consumes exactly the separator's length. -/
theorem matchSepAt_drop (sep : List Char) : ∀ (mcs rest : List (Char × Bool)),
    matchSepAt mcs sep = some rest → rest = mcs.drop sep.length := by
  induction sep with
  | nil =>
    intro mcs rest h
    simp only [matchSepAt] at h
    simpa using (Option.some.inj h).symm
  | cons s srest ih =>
    intro mcs rest h
    match mcs with
    | [] => simp [matchSepAt] at h
    | (c, esc) :: mcs' =>
      simp only [matchSepAt] at h
      split at h
      · simpa using ih mcs' rest h
      · exact absurd h (by simp)

/-- The winning separator of `trySeps` is a candidate that matches, and no
longer candidate matches at the same position. -/
theorem trySeps_some (mcs : List (Char × Bool)) (sep : List Char) (rest : List (Char × Bool))
    (h : trySeps mcs = some (sep, rest)) :
    sep ∈ separators ∧ matchSepAt mcs sep = some rest ∧
      ∀ s, s ∈ separators → (matchSepAt mcs s).isSome = true → s.length ≤ sep.length := by
  have expand : trySeps mcs = some (sep, rest) := h
  simp only [trySeps, separators, List.findSome?_cons] at expand
  cases h1 : matchSepAt mcs [':', '=', '@'] with
  | some r1 =>
    rw [h1] at expand
    simp only [Option.map_some'] at expand
    obtain ⟨hsep, hrest⟩ : sep = [':', '=', '@'] ∧ rest = r1 := by
      constructor
      · exact congrArg Prod.fst (Option.some.inj expand) |>.symm
      · exact congrArg Prod.snd (Option.some.inj expand) |>.symm
    subst hsep; subst hrest
    refine ⟨by simp [separators], h1, ?_⟩
    intro s hs _
    fin_cases hs <;> simp
  | none =>
    rw [h1] at expand
    simp only [Option.map_none', List.findSome?_nil] at expand
    cases h2 : matchSepAt mcs ['=', '@'] with
    | some r2 =>
      rw [h2] at expand
      simp only [Option.map_some'] at expand
      obtain ⟨hsep, hrest⟩ : sep = ['=', '@'] ∧ rest = r2 :=
        ⟨(congrArg Prod.fst (Option.some.inj expand)).symm,
         (congrArg Prod.snd (Option.some.inj expand)).symm⟩
      subst hsep; subst hrest
      refine ⟨by simp [separators], h2, ?_⟩
      intro s hs hmatch
      fin_cases hs <;> simp_all
    | none =>
      rw [h2] at expand
      simp only [Option.map_none'] at expand
      cases h3 : matchSepAt mcs [':', '='] with
      | some r3 =>
        rw [h3] at expand
        simp only [Option.map_some'] at expand
        obtain ⟨hsep, hrest⟩ : sep = [':', '='] ∧ rest = r3 :=
          ⟨(congrArg Prod.fst (Option.some.inj expand)).symm,
           (congrArg Prod.snd (Option.some.inj expand)).symm⟩
        subst hsep; subst hrest
        refine ⟨by simp [separators], h3, ?_⟩
        intro s hs hmatch
        fin_cases hs <;> simp_all
      | none =>
        rw [h3] at expand
        simp only [Option.map_none'] at expand
        cases h4 : matchSepAt mcs ['=', '='] with
        | some r4 =>
          rw [h4] at expand
          simp only [Option.map_some'] at expand
          obtain ⟨hsep, hrest⟩ : sep = ['=', '='] ∧ rest = r4 :=
            ⟨(congrArg Prod.fst (Option.some.inj expand)).symm,
             (congrArg Prod.snd (Option.some.inj expand)).symm⟩
          subst hsep; subst hrest
          refine ⟨by simp [separators], h4, ?_⟩
          intro s hs hmatch
          fin_cases hs <;> simp_all
        | none =>
          rw [h4] at expand
          simp only [Option.map_none'] at expand
          cases h5 : matchSepAt mcs [':'] with
          | some r5 =>
            rw [h5] at expand
            simp only [Option.map_some'] at expand
            obtain ⟨hsep, hrest⟩ : sep = [':'] ∧ rest = r5 :=
              ⟨(congrArg Prod.fst (Option.some.inj expand)).symm,
               (congrArg Prod.snd (Option.some.inj expand)).symm⟩
            subst hsep; subst hrest
            refine ⟨by simp [separators], h5, ?_⟩
            intro s hs hmatch
            fin_cases hs <;> simp_all
          | none =>
            rw [h5] at expand
            simp only [Option.map_none'] at expand
            cases h6 : matchSepAt mcs ['='] with
            | some r6 =>
              rw [h6] at expand
              simp only [Option.map_some'] at expand
              obtain ⟨hsep, hrest⟩ : sep = ['='] ∧ rest = r6 :=
                ⟨(congrArg Prod.fst (Option.some.inj expand)).symm,
                 (congrArg Prod.snd (Option.some.inj expand)).symm⟩
              subst hsep; subst hrest
              refine ⟨by simp [separators], h6, ?_⟩
              intro s hs hmatch
              fin_cases hs <;> simp_all
            | none =>
              rw [h6] at expand
              simp only [Option.map_none'] at expand
              cases h7 : matchSepAt mcs ['@'] with
              | some r7 =>
                rw [h7] at expand
                simp only [Option.map_some'] at expand
                obtain ⟨hsep, hrest⟩ : sep = ['@'] ∧ rest = r7 :=
                  ⟨(congrArg Prod.fst (Option.some.inj expand)).symm,
                   (congrArg Prod.snd (Option.some.inj expand)).symm⟩
                subst hsep; subst hrest
                refine ⟨by simp [separators], h7, ?_⟩
                intro s hs hmatch
                fin_cases hs <;> simp_all
              | none =>
                rw [h7] at expand
                simp at expand

/-- When no candidate wins, none matches. -/
theorem trySeps_none (mcs : List (Char × Bool)) (h : trySeps mcs = none) :
    ∀ s, s ∈ separators → matchSepAt mcs s = none := by
  intro s hs
  have := List.findSome?_eq_none_iff.mp h s hs
  simpa using this

/-- The converse: when no candidate matches, `trySeps` yields nothing. -/
theorem trySeps_none_of (mcs : List (Char × Bool))
    (h : ∀ s, s ∈ separators → matchSepAt mcs s = none) : trySeps mcs = none := by
  apply List.findSome?_eq_none_iff.mpr
  intro s hs
  simp [h s hs]

/-- No separator matches the empty remainder. -/
theorem trySeps_nil : trySeps ([] : List (Char × Bool)) = none := by rfl

/-- Characterization of a successful split: there is a first position where
a candidate matches, the key is everything before it and the value
everything after the separator. -/
theorem splitParam_spec : ∀ (mcs : List (Char × Bool)) (k sep v : List Char),
    splitParam mcs = some (k, sep, v) →
    ∃ i, (∀ j, j < i → trySeps (mcs.drop j) = none) ∧
      (∃ rest, trySeps (mcs.drop i) = some (sep, rest)) ∧
      k = emitted (mcs.take i) ∧ v = emitted (mcs.drop (i + sep.length)) := by
  intro mcs
  induction mcs with
  | nil => intro k sep v h; simp [splitParam] at h
  | cons ce rest ih =>
    obtain ⟨c, e⟩ := ce
    intro k sep v h
    simp only [splitParam] at h
    cases htry : trySeps ((c, e) :: rest) with
    | some p =>
      obtain ⟨sep', after⟩ := p
      rw [htry] at h
      have h' := Option.some.inj h
      simp only [Prod.mk.injEq] at h'
      obtain ⟨hk, hsep, hv⟩ := h'
      subst hk; subst hsep
      refine ⟨0, by omega, ⟨after, by simpa using htry⟩, by simp [emitted], ?_⟩
      have hmatch := (trySeps_some _ _ _ htry).2.1
      have hafter := matchSepAt_drop sep' _ _ hmatch
      rw [← hv, hafter]
      simp
    | none =>
      rw [htry] at h
      simp only [Option.map_eq_some'] at h
      obtain ⟨⟨k', sep', v'⟩, hsp, heq⟩ := h
      simp only [Prod.mk.injEq] at heq
      obtain ⟨hk, hsep, hv⟩ := heq
      obtain ⟨i, hnone, hsome, hkk, hvv⟩ := ih k' sep' v' hsp
      subst hk; subst hsep; subst hv
      refine ⟨i + 1, ?_, ?_, ?_, ?_⟩
      · intro j hj
        cases j with
        | zero => simpa using htry
        | succ j' => simpa using hnone j' (by omega)
      · simpa using hsome
      · simp [emitted, hkk]
      · rw [hvv]
        have : i + 1 + sep'.length = (i + sep'.length) + 1 := by omega
        rw [this]
        simp

/-- A run with no split anywhere is exactly a run where no candidate
matches at any position. -/
theorem splitParam_eq_none : ∀ (mcs : List (Char × Bool)),
    splitParam mcs = none ↔ ∀ i, trySeps (mcs.drop i) = none := by
  intro mcs
  induction mcs with
  | nil => simp [splitParam, trySeps_nil]
  | cons x rest ih =>
    obtain ⟨c, e⟩ := x
    simp only [splitParam]
    cases htry : trySeps ((c, e) :: rest) with
    | some p =>
      simp only [Option.map_eq_none']
      constructor
      · intro hcontra; cases hcontra
      · intro hall
        have := hall 0
        simp [htry] at this
    | none =>
      simp only [Option.map_eq_none']
      rw [ih]
      constructor
      · intro hall i
        cases i with
        | zero => simpa using htry
        | succ i' => simpa using hall i'
      · intro hall i
        simpa using hall (i + 1)

end ParserLemmas

/-- Claim C1: for every raw argument with at least one unescaped separator,
`parse_param` splits at the earliest position where any candidate matches,
using the longest candidate matching there, and builds the corresponding
variant; in particular `foo:=@bar.json` is RawJsonDataFile and
`foo=@bar.txt` is DataFile. -/
theorem claim_C1 :
    (∀ raw p, parse_param raw = .ok p →
      ∃ i sep,
        sep ∈ separators ∧
        (matchSepAt ((markEscapes raw.toList).drop i) sep).isSome = true ∧
        (∀ j, j < i → ∀ s, s ∈ separators →
          matchSepAt ((markEscapes raw.toList).drop j) s = none) ∧
        (∀ s, s ∈ separators →
          (matchSepAt ((markEscapes raw.toList).drop i) s).isSome = true →
          s.length ≤ sep.length) ∧
        p = mkParameter sep (emitted ((markEscapes raw.toList).take i))
              (emitted ((markEscapes raw.toList).drop (i + sep.length)))) ∧
    parse_param "foo:=@bar.json" = .ok (.RawJsonDataFile "foo" "bar.json") ∧
    parse_param "foo=@bar.txt" = .ok (.DataFile "foo" "bar.txt") := by
  refine ⟨?_, by rfl, by rfl⟩
  intro raw p h
  unfold parse_param at h
  cases hsp : splitParam (markEscapes raw.toList) with
  | none => rw [hsp] at h; cases h
  | some kv =>
    obtain ⟨k, sep, v⟩ := kv
    rw [hsp] at h
    simp only [Except.ok.injEq] at h
    obtain ⟨i, hnone, ⟨rest, hsome⟩, hk, hv⟩ := splitParam_spec _ _ _ _ hsp
    obtain ⟨hmem, hmatch, hlong⟩ := trySeps_some _ _ _ hsome
    refine ⟨i, sep, hmem, by rw [hmatch]; rfl, ?_, hlong, ?_⟩
    · intro j hj s hs
      exact trySeps_none _ (hnone j hj) s hs
    · rw [← h, hk, hv]

/-- Claim C1 witness: the characterization applied to `foo:=@bar.json`. -/
theorem claim_C1_witness :
    ∃ i sep,
      sep ∈ separators ∧
      (matchSepAt ((markEscapes ("foo:=@bar.json").toList).drop i) sep).isSome = true ∧
      (∀ j, j < i → ∀ s, s ∈ separators →
        matchSepAt ((markEscapes ("foo:=@bar.json").toList).drop j) s = none) ∧
      (∀ s, s ∈ separators →
        (matchSepAt ((markEscapes ("foo:=@bar.json").toList).drop i) s).isSome = true →
        s.length ≤ sep.length) ∧
      Parameter.RawJsonDataFile "foo" "bar.json" =
        mkParameter sep (emitted ((markEscapes ("foo:=@bar.json").toList).take i))
          (emitted ((markEscapes ("foo:=@bar.json").toList).drop (i + sep.length))) :=
  claim_C1.1 "foo:=@bar.json" (.RawJsonDataFile "foo" "bar.json") claim_C1.2.1

section EscapeLemmas

/-- A character other than a backslash is scanned as itself, unescaped. -/
theorem markEscapes_cons_ne (c : Char) (l : List Char) (hc : c ≠ '\\') :
    markEscapes (c :: l) = (c, false) :: markEscapes l := by
  cases l with
  | nil => simp [markEscapes]
  | cons d l' => simp [markEscapes, hc]

/-- A backslash before a separator character is scanned as that character,
escaped. -/
theorem markEscapes_escape (d : Char) (l : List Char) (hd : isSepChar d = true) :
    markEscapes ('\\' :: d :: l) = (d, true) :: markEscapes l := by
  simp [markEscapes, hd]

/-- Scanning an escaped string marks each original character with its
separator status, then continues with the remainder. -/
theorem markEscapes_escapeChars (s : List Char) (hs : '\\' ∉ s) (rest : List Char) :
    markEscapes (escapeChars s ++ rest) = s.map plainMark ++ markEscapes rest := by
  induction s with
  | nil => simp [escapeChars]
  | cons c s' ih =>
    have hc : c ≠ '\\' := fun h => hs (h ▸ List.mem_cons_self c s')
    have hs' : '\\' ∉ s' := fun h => hs (List.mem_cons_of_mem c h)
    cases hsep : isSepChar c with
    | true =>
      rw [show escapeChars (c :: s') = '\\' :: c :: escapeChars s' from by
        simp [escapeChars, hsep]]
      rw [List.cons_append, List.cons_append, markEscapes_escape c _ hsep, ih hs']
      simp [plainMark, hsep]
    | false =>
      rw [show escapeChars (c :: s') = c :: escapeChars s' from by
        simp [escapeChars, hsep]]
      rw [List.cons_append, markEscapes_cons_ne c _ hc, ih hs']
      simp [plainMark, hsep]

/-- Scanning a fully escaped string yields exactly the marked characters. -/
theorem markEscapes_escapeChars_nil (s : List Char) (hs : '\\' ∉ s) :
    markEscapes (escapeChars s) = s.map plainMark := by
  have h := markEscapes_escapeChars s hs []
  simpa [markEscapes] using h

/-- No separator can match starting at a character marked with its own
separator status: a separator character there is escaped, and any other
character differs from every separator's first character. -/
theorem matchSepAt_plainMark_cons (c : Char) (l : List (Char × Bool)) (s : Char)
    (srest : List Char) (hs : isSepChar s = true) :
    matchSepAt (plainMark c :: l) (s :: srest) = none := by
  simp only [plainMark, matchSepAt]
  by_cases hc : isSepChar c = true
  · simp [hc]
  · have : c ≠ s := fun h => hc (h ▸ hs)
    simp [this]

/-- No separator matches anywhere inside a fully escaped region. -/
theorem trySeps_plainMark_cons (c : Char) (l : List (Char × Bool)) :
    trySeps (plainMark c :: l) = none := by
  apply trySeps_none_of
  intro s hs
  fin_cases hs <;> exact matchSepAt_plainMark_cons c l _ _ (by decide)

/-- A one-character separator candidate never matches a fully escaped
value region. -/
theorem matchSepAt_mapped (v : List Char) (x : Char) (srest : List Char)
    (hx : isSepChar x = true) :
    matchSepAt (v.map plainMark) (x :: srest) = none := by
  cases v with
  | nil => rfl
  | cons c v' => exact matchSepAt_plainMark_cons c _ x srest hx

/-- The empty candidate matches any remainder whole. -/
theorem matchSepAt_nil (mcs : List (Char × Bool)) : matchSepAt mcs [] = some mcs := by
  cases mcs with
  | nil => rfl
  | cons x l => obtain ⟨c, e⟩ := x; rfl

/-- Resolving the marks of unescaped characters gives them back. -/
theorem emitted_plainMark (l : List Char) : emitted (l.map plainMark) = l := by
  show (l.map plainMark).map Prod.fst = l
  rw [List.map_map]
  have : Prod.fst ∘ plainMark = id := funext fun c => rfl
  rw [this, List.map_id]

/-- One unfolding step of the split scan. -/
theorem splitParam_cons (x : Char × Bool) (rest : List (Char × Bool)) :
    splitParam (x :: rest) =
      match trySeps (x :: rest) with
      | some (sep, after) => some ([], sep, emitted after)
      | none => (splitParam rest).map fun kv => (x.1 :: kv.1, kv.2.1, kv.2.2) := by
  obtain ⟨c, e⟩ := x
  rfl

/-- At the unescaped `=` the winning candidate is `=` itself: the longer
candidates starting with `=` would need an unescaped separator character
right after it, and the escaped value region has none. -/
theorem trySeps_at_eq (v : List Char) :
    trySeps (('=', false) :: v.map plainMark) = some (['='], v.map plainMark) := by
  have h2 : matchSepAt (('=', false) :: v.map plainMark) ['=', '@'] = none := by
    simp only [matchSepAt]
    rw [if_pos (by simp)]
    exact matchSepAt_mapped v '@' [] (by decide)
  have h4 : matchSepAt (('=', false) :: v.map plainMark) ['=', '='] = none := by
    simp only [matchSepAt]
    rw [if_pos (by simp)]
    exact matchSepAt_mapped v '=' [] (by decide)
  have h6 : matchSepAt (('=', false) :: v.map plainMark) ['='] =
      some (v.map plainMark) := by
    simp [matchSepAt, matchSepAt_nil]
  simp only [trySeps, separators, List.findSome?_cons]
  rw [show matchSepAt (('=', false) :: v.map plainMark) [':', '=', '@'] = none from rfl]
  rw [h2]
  rw [show matchSepAt (('=', false) :: v.map plainMark) [':', '='] = none from rfl]
  rw [h4]
  rw [show matchSepAt (('=', false) :: v.map plainMark) [':'] = none from rfl]
  rw [h6]
  rfl

/-- Splitting an escaped key, a literal `=`, and an escaped value finds
exactly that `=`. -/
theorem splitParam_escaped (k v : List Char) :
    splitParam (k.map plainMark ++ ('=', false) :: v.map plainMark) =
      some (k, ['='], v) := by
  induction k with
  | nil =>
    show splitParam (('=', false) :: v.map plainMark) = some ([], ['='], v)
    rw [splitParam_cons, trySeps_at_eq]
    simp [emitted_plainMark]
  | cons c k' ih =>
    show splitParam (plainMark c :: (k'.map plainMark ++ ('=', false) :: v.map plainMark)) =
      some (c :: k', ['='], v)
    rw [splitParam_cons, trySeps_plainMark_cons, ih]
    rfl

end EscapeLemmas

/-- Claim C6: a backslash immediately before a separator character is
consumed as two input characters and emitted as one literal character, not
a delimiter: for any backslash-free key and value, escaping their separator
characters and joining them with `=` parses as Data of exactly that key and
value.  The concrete instance `a\:b=c` → Data "a:b" "c" is the witness. -/
theorem claim_C6 (k v : String) (hk : '\\' ∉ k.toList) (hv : '\\' ∉ v.toList) :
    parse_param (escapeSeps k ++ "=" ++ escapeSeps v) = .ok (.Data k v) := by
  have htl : (escapeSeps k ++ "=" ++ escapeSeps v).toList =
      escapeChars k.toList ++ '=' :: escapeChars v.toList := by
    show ((escapeSeps k ++ "=" ++ escapeSeps v).data) = _
    rw [String.data_append, String.data_append, List.append_assoc]
    rfl
  unfold parse_param
  rw [htl, markEscapes_escapeChars k.toList hk,
    markEscapes_cons_ne '=' _ (by decide),
    markEscapes_escapeChars_nil v.toList hv,
    splitParam_escaped k.toList v.toList]
  rfl

/-- Claim C6 witness: `a\:b=c` parses as Data with key `a:b` and value
`c`. -/
theorem claim_C6_witness : parse_param "a\\:b=c" = .ok (.Data "a:b" "c") :=
  claim_C6 "a:b" "c" (by decide) (by decide)

/-- Claim C7: parsing fails, with the parameter-missing-separator error
carrying the raw argument, exactly when no candidate separator matches at
any unescaped position; a success is always one of the seven variants. -/
theorem claim_C7 (raw : String) :
    (parse_param raw = .error (.ParameterMissingSeparator raw) ↔
      ∀ i, i < (markEscapes raw.toList).length → ∀ s, s ∈ separators →
        matchSepAt ((markEscapes raw.toList).drop i) s = none) ∧
    (∀ p, parse_param raw = .ok p →
      (∃ a b, p = .Header a b) ∨ (∃ a b, p = .Data a b) ∨
      (∃ a b, p = .RawJsonData a b) ∨ (∃ a b, p = .Query a b) ∨
      (∃ a b, p = .FormFile a b) ∨ (∃ a b, p = .DataFile a b) ∨
      (∃ a b, p = .RawJsonDataFile a b)) := by
  constructor
  · cases hsp : splitParam (markEscapes raw.toList) with
    | none =>
      have hpp : parse_param raw = .error (.ParameterMissingSeparator raw) := by
        unfold parse_param
        rw [hsp]
      rw [hpp]
      simp only [true_iff]
      intro i _ s hs
      exact trySeps_none _ ((splitParam_eq_none _).mp hsp i) s hs
    | some kv =>
      obtain ⟨k, sep, v⟩ := kv
      have hpp : parse_param raw = .ok (mkParameter sep k v) := by
        unfold parse_param
        rw [hsp]
      rw [hpp]
      constructor
      · intro hcontra
        exact Except.noConfusion hcontra
      · intro hall
        exfalso
        obtain ⟨i, _, ⟨rest, hsome⟩, _, _⟩ := splitParam_spec _ _ _ _ hsp
        obtain ⟨hmem, hmatch, _⟩ := trySeps_some _ _ _ hsome
        have hlt : i < (markEscapes raw.toList).length := by
          by_contra hge
          have hdrop : (markEscapes raw.toList).drop i = [] :=
            List.drop_eq_nil_of_le (by omega)
          rw [hdrop] at hmatch
          fin_cases hmem <;> cases hmatch
        have hnone := hall i hlt sep hmem
        rw [hnone] at hmatch
        cases hmatch
  · intro p h
    cases p with
    | Header a b => exact Or.inl ⟨a, b, rfl⟩
    | Data a b => exact Or.inr (Or.inl ⟨a, b, rfl⟩)
    | RawJsonData a b => exact Or.inr (Or.inr (Or.inl ⟨a, b, rfl⟩))
    | Query a b => exact Or.inr (Or.inr (Or.inr (Or.inl ⟨a, b, rfl⟩)))
    | FormFile a b => exact Or.inr (Or.inr (Or.inr (Or.inr (Or.inl ⟨a, b, rfl⟩))))
    | DataFile a b => exact Or.inr (Or.inr (Or.inr (Or.inr (Or.inr (Or.inl ⟨a, b, rfl⟩)))))
    | RawJsonDataFile a b => exact Or.inr (Or.inr (Or.inr (Or.inr (Or.inr (Or.inr ⟨a, b, rfl⟩)))))

/-- Claim C7 witness: `nosep` has no unescaped separator and fails with
the parameter-missing-separator error carrying it. -/
theorem claim_C7_witness :
    parse_param "nosep" = .error (.ParameterMissingSeparator "nosep") :=
  (claim_C7 "nosep").1.mpr (by decide)

/-- Claim C2: the worked example.  The four raw arguments parse to a
Header, a Query, a Data and a RawJsonData parameter; against
`example.com/items` with no explicit method the invocation produces the
URL `http://example.com/items?foo=bar`, the header `X-API-TOKEN: abc123`,
method POST, and the JSON body fields meta=[1,2,3] and name="hurl" in
sorted key order, serializing to exactly the expected body text. -/
theorem claim_C2 :
    (["X-API-TOKEN:abc123", "foo==bar", "name=hurl", "meta:=[1,2,3]"].mapM parse_param =
      .ok [.Header "X-API-TOKEN" "abc123", .Query "foo" "bar",
           .Data "name" "hurl", .RawJsonData "meta" "[1,2,3]"]) ∧
    (runInvocation false false false none none none (some "example.com/items")
        [.Header "X-API-TOKEN" "abc123", .Query "foo" "bar",
         .Data "name" "hurl", .RawJsonData "meta" "[1,2,3]"]
        none [] (fun _ => none) (fun _ => .ok ⟨200, [], ""⟩)
      = (.ok (⟨.POST, "http://example.com/items?foo=bar", [("X-API-TOKEN", "abc123")],
              .jsonBody [("meta", .arr [.num 1, .num 2, .num 3]), ("name", .str "hurl")]⟩,
              ⟨200, [], ""⟩), none, [])) ∧
    jsonToString (.obj [("meta", .arr [.num 1, .num 2, .num 3]), ("name", .str "hurl")]) =
      "\x7b\"meta\":[1,2,3],\"name\":\"hurl\"\x7d" :=
  ⟨by rfl, by rfl, by rfl⟩

/-- Claim C3: with no explicit method the request method is POST exactly
when a Data-bearing parameter (Data, RawJsonData, DataFile or
RawJsonDataFile) is present and GET otherwise; an explicit method
subcommand is always used as given. -/
theorem claim_C3 (params : List Parameter) :
    (chooseMethod none params = .POST ↔ ∃ p ∈ params, p.is_data = true) ∧
    (chooseMethod none params = .GET ↔ ¬ ∃ p ∈ params, p.is_data = true) ∧
    (∀ k v, (Parameter.Data k v).is_data = true ∧
      (Parameter.RawJsonData k v).is_data = true ∧
      (Parameter.DataFile k v).is_data = true ∧
      (Parameter.RawJsonDataFile k v).is_data = true ∧
      (Parameter.Header k v).is_data = false ∧
      (Parameter.Query k v).is_data = false ∧
      (Parameter.FormFile k v).is_data = false) ∧
    (∀ m, chooseMethod (some m) params = methodToReq m) ∧
    (∀ d, methodToReq (.HEAD d) = .HEAD ∧ methodToReq (.GET d) = .GET ∧
      methodToReq (.PUT d) = .PUT ∧ methodToReq (.POST d) = .POST ∧
      methodToReq (.PATCH d) = .PATCH ∧ methodToReq (.DELETE d) = .DELETE) := by
  refine ⟨?_, ?_, ?_, ?_, ?_⟩
  · cases hany : params.any Parameter.is_data with
    | true =>
      simp only [chooseMethod, hany, if_true]
      simpa using List.any_eq_true.mp hany
    | false =>
      simp only [chooseMethod, hany, if_false]
      constructor
      · intro hcontra; cases hcontra
      · intro hex
        exact absurd (List.any_eq_true.mpr (by simpa using hex)) (by simp [hany])
  · cases hany : params.any Parameter.is_data with
    | true =>
      simp only [chooseMethod, hany, if_true]
      constructor
      · intro hcontra; cases hcontra
      · intro hne
        exact absurd (by simpa using List.any_eq_true.mp hany) hne
    | false =>
      simp only [chooseMethod, hany, if_false]
      constructor
      · intro _ hex
        exact absurd (List.any_eq_true.mpr (by simpa using hex)) (by simp [hany])
      · intro _; rfl
  · intro k v
    exact ⟨rfl, rfl, rfl, rfl, rfl, rfl, rfl⟩
  · intro m; rfl
  · intro d
    exact ⟨rfl, rfl, rfl, rfl, rfl, rfl⟩

/-- Claim C4: request assembly with a FormFile parameter present and form
mode off fails with the not-form-but-has-form-file error, whatever the
other inputs are; with form mode on that error is never produced. -/
theorem claim_C4 (form secure upd : Bool) (auth token : Option String)
    (session : Option Session) (method : ReqMethod) (rawUrl : String)
    (params : List Parameter) (fs : FileSystem) :
    ((∃ k f, Parameter.FormFile k f ∈ params) → form = false →
      assembleRequest form secure upd auth token session method rawUrl params fs =
        .error .NotFormButHasFormFile) ∧
    (form = true →
      assembleRequest form secure upd auth token session method rawUrl params fs ≠
        .error .NotFormButHasFormFile) := by
  constructor
  · rintro ⟨k, f, hmem⟩ hform
    subst hform
    have hany : params.any Parameter.is_form_file = true :=
      List.any_eq_true.mpr ⟨_, hmem, rfl⟩
    simp [assembleRequest, hany]
  · intro hform
    subst hform
    cases hany : params.any Parameter.is_form_file with
    | true =>
      simp only [assembleRequest, hany, Bool.not_true, Bool.and_false]
      cases hp : handle_parameters true true params fs with
      | error e =>
        simp only [hp]
        cases e with
        | serdeFail c => intro hcontra; cases hcontra
        | ioFail k => intro hcontra; cases hcontra
      | ok body =>
        simp only [hp]
        intro hcontra; cases hcontra
    | false =>
      simp only [assembleRequest, hany, Bool.false_and]
      cases hp : handle_parameters true false params fs with
      | error e =>
        simp only [hp]
        cases e with
        | serdeFail c => intro hcontra; cases hcontra
        | ioFail k => intro hcontra; cases hcontra
      | ok body =>
        simp only [hp]
        intro hcontra; cases hcontra

/-- Claim C4 witness: a FormFile parameter with form mode off, and the
same parameter list with form mode on. -/
theorem claim_C4_witness :
    assembleRequest false false true none none none .GET "example.com"
        [Parameter.FormFile "a" "f"] (fun _ => none) =
      .error .NotFormButHasFormFile ∧
    assembleRequest true false true none none none .GET "example.com"
        [Parameter.FormFile "a" "f"] (fun _ => some "data") ≠
      .error .NotFormButHasFormFile :=
  ⟨(claim_C4 false false true none none none .GET "example.com"
      [Parameter.FormFile "a" "f"] (fun _ => none)).1 ⟨"a", "f", by simp⟩ rfl,
   (claim_C4 true false true none none none .GET "example.com"
      [Parameter.FormFile "a" "f"] (fun _ => some "data")).2 rfl⟩

section SessionRoundTrip

/-- Optional string fields round-trip. -/
theorem decodeOptStr_encode (o : Option String) : decodeOptStr (encodeOptStr o) = some o := by
  cases o <;> rfl

/-- Object members of string pairs round-trip. -/
theorem decodeStrMembers_encode (l : List (String × String)) :
    decodeStrMembers (l.map fun kv => (kv.1, Json.str kv.2)) = some l := by
  induction l with
  | nil => rfl
  | cons kv rest ih =>
    obtain ⟨k, v⟩ := kv
    simp [decodeStrMembers, ih]

/-- The header map encoding round-trips. -/
theorem decodeStrPairs_encode (l : List (String × String)) :
    decodeStrPairs (encodeStrPairs l) = some l := by
  simp [decodeStrPairs, encodeStrPairs, decodeStrMembers_encode]

/-- Cookie items round-trip. -/
theorem decodeCookieItems_encode (l : List (String × String)) :
    decodeCookieItems (l.map fun kv => Json.arr [.str kv.1, .str kv.2]) = some l := by
  induction l with
  | nil => rfl
  | cons kv rest ih =>
    obtain ⟨k, v⟩ := kv
    simp [decodeCookieItems, ih]

/-- The ordered cookie list encoding round-trips. -/
theorem decodeCookies_encode (l : List (String × String)) :
    decodeCookies (encodeCookies l) = some l := by
  simp [decodeCookies, encodeCookies, decodeCookieItems_encode]

end SessionRoundTrip

/-- Claim C8: saving any session and loading it back reproduces a session
with identical cookie list (same pairs, same order), identical header map,
and identical auth and token fields — the whole record is reproduced. -/
theorem claim_C8 (s : Session) : sessionFromJson (sessionToJson s) = some s := by
  obtain ⟨p, n, h, a, t, hs, cs⟩ := s
  simp [sessionToJson, sessionFromJson, lookupField, decodeOptStr_encode,
    encodeStrPairs, decodeStrPairs, decodeStrMembers_encode,
    encodeCookies, decodeCookies, decodeCookieItems_encode]

section PipelineLemmas

/-- Without the update flag the session passes through untouched. -/
theorem handle_session_false (auth token : Option String) (sess : Option Session) :
    handle_session false auth token sess = sess := by
  cases sess with
  | none => rfl
  | some s => simp [handle_session]

/-- The only inputs on which the loaded session is consulted by the header
merge are its headers and cookies, which the update flag never touches. -/
theorem handle_session_headers (upd : Bool) (auth token : Option String) (s : Session) :
    ∃ s', handle_session upd auth token (some s) = some s' ∧
      s'.headers = s.headers ∧ s'.cookies = s.cookies ∧ s'.path = s.path := by
  cases upd with
  | false => exact ⟨s, rfl, rfl, rfl, rfl⟩
  | true => exact ⟨_, rfl, rfl, rfl, rfl⟩

/-- Updating a session with a response changes only its cookie list. -/
theorem update_with_response_fields (s : Session) (resp : Response) :
    (s.update_with_response resp).auth = s.auth ∧
    (s.update_with_response resp).token = s.token ∧
    (s.update_with_response resp).path = s.path ∧
    (s.update_with_response resp).headers = s.headers := by
  exact ⟨rfl, rfl, rfl, rfl⟩

/-- Reading back the key just written. -/
theorem storeGet_storeSet (st : Store) (k : String) (v : Json) :
    storeGet (storeSet st k v) k = some v := by
  induction st with
  | nil => simp [storeSet, storeGet]
  | cons kv rest ih =>
    obtain ⟨k', v'⟩ := kv
    by_cases hk : k' = k
    · subst hk
      simp [storeSet, storeGet]
    · simp [storeSet, storeGet, hk, ih]

end PipelineLemmas

/-- Claim C5: auth resolution is a pure function of the two explicit flags
and the session, with precedence explicit bearer token, explicit
basic-auth, session token, session basic-auth, none; an explicit
`--auth alice:secret` overrides any session credential, and one successful
non-read-only request against a fresh session stores `alice:secret` in the
session file for that name and host. -/
theorem claim_C5 :
    (∀ a t sess, resolveAuth (some a) (some t) sess = some (.bearer t)) ∧
    (∀ a sess, resolveAuth (some a) none sess = some (.basic a)) ∧
    (∀ s t', s.token = some t' → resolveAuth none none (some s) = some (.bearer t')) ∧
    (∀ s a', s.token = none → s.auth = some a' →
      resolveAuth none none (some s) = some (.basic a')) ∧
    (∀ s, s.token = none → s.auth = none → resolveAuth none none (some s) = none) ∧
    (resolveAuth none none none = none) ∧
    (∀ sess, resolveAuth (some "alice:secret") none sess = some (.basic "alice:secret")) ∧
    (∀ (secure : Bool) (name urlStr : String) (params : List Parameter) (st : Store)
        (fs : FileSystem) (transport : Transport) out sess' store',
      storeGet st (sessionPath name (extractHost urlStr)) = none →
      runInvocation false secure false (some "alice:secret") none none (some urlStr)
          params (some name) st fs transport = (.ok out, sess', store') →
      ∃ s'', storeGet store' (sessionPath name (extractHost urlStr)) =
          some (sessionToJson s'') ∧ s''.auth = some "alice:secret") := by
  refine ⟨fun a t sess => rfl, fun a sess => rfl, ?_, ?_, ?_, rfl, fun sess => rfl, ?_⟩
  · intro s t' ht
    simp [resolveAuth, ht]
  · intro s a' ht ha
    simp [resolveAuth, ht, ha]
  · intro s ht ha
    simp [resolveAuth, ht, ha]
  · intro secure name urlStr params st fs transport out sess' store' hsg hrun
    unfold runInvocation at hrun
    simp only [Option.isNone_none, Option.isNone_some, Bool.true_and, Bool.and_false,
      Bool.false_eq_true, if_false, reduceIte] at hrun
    have hload : get_or_create st name (extractHost (rawUrlOf none (some urlStr))) =
        freshSession name (extractHost urlStr) := by
      show get_or_create st name (extractHost urlStr) = _
      unfold get_or_create
      rw [hsg]
    rw [show (rawUrlOf none (some urlStr)) = urlStr from rfl] at hrun
    rw [show ((some name).map fun n => get_or_create st n (extractHost urlStr)) =
      some (get_or_create st name (extractHost urlStr)) from rfl] at hrun
    rw [show get_or_create st name (extractHost urlStr) =
      freshSession name (extractHost urlStr) from by unfold get_or_create; rw [hsg]] at hrun
    simp only [Bool.not_false] at hrun
    cases hA : assembleRequest false secure true (some "alice:secret") none
        (some (freshSession name (extractHost urlStr))) (chooseMethod none params)
        urlStr (paramsOf none params) fs with
    | error e =>
      rw [hA] at hrun
      cases hrun
    | ok pr =>
      obtain ⟨desc, session'⟩ := pr
      rw [hA] at hrun
      dsimp only at hrun
      cases hT : transport desc with
      | error e =>
        rw [hT] at hrun
        cases hrun
      | ok resp =>
        rw [hT] at hrun
        have hsession' : session' =
            some { freshSession name (extractHost urlStr) with auth := some "alice:secret" } := by
          unfold assembleRequest at hA
          cases hmul : (paramsOf none params).any Parameter.is_form_file with
          | true =>
            rw [hmul] at hA
            simp at hA
          | false =>
            rw [hmul] at hA
            simp only [Bool.false_and, Bool.and_self, if_false, reduceIte] at hA
            cases hp : handle_parameters false false (paramsOf none params) fs with
            | error e =>
              rw [hp] at hA
              cases hA
            | ok body =>
              rw [hp] at hA
              have := (Except.ok.inj hA)
              have h2 := congrArg Prod.snd this
              simp only at h2
              rw [← h2]
              rfl
        subst hsession'
        simp only [handle_response, reduceIte] at hrun
        have hstore : store' = storeSet st
            (sessionPath name (extractHost urlStr))
            (sessionToJson (Session.update_with_response
              { freshSession name (extractHost urlStr) with auth := some "alice:secret" } resp)) := by
          have := congrArg (fun x => x.2.2) hrun
          simp only at this
          rw [← this]
          rfl
        refine ⟨Session.update_with_response
          { freshSession name (extractHost urlStr) with auth := some "alice:secret" } resp, ?_, rfl⟩
        rw [hstore]
        exact storeGet_storeSet st _ _

/-- Claim C5 witness: one successful non-read-only request with
`--auth alice:secret` against a fresh session named `n` on
`example.com/x` leaves a session file storing `alice:secret`. -/
theorem claim_C5_witness :
    ∃ s'', storeGet [("n__example.com", sessionToJson ⟨"n__example.com", "n", "example.com",
        some "alice:secret", none, [], []⟩)]
        (sessionPath "n" (extractHost "example.com/x")) = some (sessionToJson s'') ∧
      s''.auth = some "alice:secret" :=
  claim_C5.2.2.2.2.2.2.2 false "n" "example.com/x" [] [] (fun _ => none)
    (fun _ => .ok ⟨200, [], ""⟩)
    (⟨.GET, "http://example.com/x", [("Authorization", "Basic alice:secret")], .empty⟩,
     ⟨200, [], ""⟩)
    (some ⟨"n__example.com", "n", "example.com", some "alice:secret", none, [], []⟩)
    [("n__example.com", sessionToJson ⟨"n__example.com", "n", "example.com",
      some "alice:secret", none, [], []⟩)]
    rfl rfl

/-- Claim C9: a read-only invocation never persists and never mutates the
session: the final store is the initial store, the final in-memory session
is exactly the loaded one, and yet the session is still read and merged —
on success the request's headers are the merge of the loaded session's
headers, the Header parameters and the resolved auth. -/
theorem claim_C9 (form secure : Bool) (auth token : Option String) (cmd : Option Method)
    (url : Option String) (params : List Parameter) (sname : Option String)
    (st : Store) (fs : FileSystem) (transport : Transport) :
    ((runInvocation form secure true auth token cmd url params sname st fs transport).2.2
      = st) ∧
    ((cmd.isNone && url.isNone) = false →
      (runInvocation form secure true auth token cmd url params sname st fs transport).2.1
        = sname.map fun n => get_or_create st n (extractHost (rawUrlOf cmd url))) ∧
    ((cmd.isNone && url.isNone) = true →
      (runInvocation form secure true auth token cmd url params sname st fs transport).2.1
        = none) ∧
    (∀ desc resp,
      (runInvocation form secure true auth token cmd url params sname st fs transport).1
        = .ok (desc, resp) →
      desc.headers = mergeHeaders
        (sname.map fun n => get_or_create st n (extractHost (rawUrlOf cmd url)))
        (paramsOf cmd params)
        (resolveAuth auth token
          (sname.map fun n => get_or_create st n (extractHost (rawUrlOf cmd url))))) := by
  cases hcu : (cmd.isNone && url.isNone) with
  | true =>
    refine ⟨?_, ?_, ?_, ?_⟩ <;>
      simp [runInvocation, hcu]
  | false =>
    have hrw : runInvocation form secure true auth token cmd url params sname st fs transport =
        (match assembleRequest form secure (!true) auth token
            (sname.map fun n => get_or_create st n (extractHost (rawUrlOf cmd url)))
            (chooseMethod cmd params) (rawUrlOf cmd url) (paramsOf cmd params) fs with
          | .error e => (.error e,
              sname.map fun n => get_or_create st n (extractHost (rawUrlOf cmd url)), st)
          | .ok (desc, session') =>
            match transport desc with
            | .error e => (.error e, session', st)
            | .ok resp =>
              ((Except.ok (desc, resp) : Except Error (RequestDescriptor × Response)),
                (handle_response true session' resp st).1,
                (handle_response true session' resp st).2)) := by
      unfold runInvocation
      rw [hcu]
      rfl
    rw [hrw]
    simp only [Bool.not_true] at *
    cases hA : assembleRequest form secure false auth token
        (sname.map fun n => get_or_create st n (extractHost (rawUrlOf cmd url)))
        (chooseMethod cmd params) (rawUrlOf cmd url) (paramsOf cmd params) fs with
    | error e =>
      refine ⟨rfl, fun _ => rfl, by simp [hcu], ?_⟩
      intro desc resp hcontra
      exact Except.noConfusion hcontra
    | ok pr =>
      obtain ⟨desc, session'⟩ := pr
      dsimp only
      have hsession' : session' =
          sname.map fun n => get_or_create st n (extractHost (rawUrlOf cmd url)) := by
        unfold assembleRequest at hA
        dsimp only at hA
        rw [handle_session_false] at hA
        split at hA
        · exact Except.noConfusion hA
        · cases hp : handle_parameters form
              ((paramsOf cmd params).any Parameter.is_form_file) (paramsOf cmd params) fs with
          | error e => rw [hp] at hA; exact Except.noConfusion hA
          | ok body =>
            rw [hp] at hA
            dsimp only at hA
            have h := Except.ok.inj hA
            simp only [Prod.mk.injEq] at h
            exact h.2.symm
      have hdesc : desc.headers = mergeHeaders
          (sname.map fun n => get_or_create st n (extractHost (rawUrlOf cmd url)))
          (paramsOf cmd params)
          (resolveAuth auth token
            (sname.map fun n => get_or_create st n (extractHost (rawUrlOf cmd url)))) := by
        unfold assembleRequest at hA
        dsimp only at hA
        split at hA
        · exact Except.noConfusion hA
        · cases hp : handle_parameters form
              ((paramsOf cmd params).any Parameter.is_form_file) (paramsOf cmd params) fs with
          | error e => rw [hp] at hA; exact Except.noConfusion hA
          | ok body =>
            rw [hp] at hA
            dsimp only at hA
            have h := Except.ok.inj hA
            simp only [Prod.mk.injEq] at h
            rw [← h.1]
      cases hT : transport desc with
      | error e =>
        refine ⟨rfl, fun _ => hsession', by simp [hcu], ?_⟩
        intro d r hcontra
        exact Except.noConfusion hcontra
      | ok resp =>
        simp only [handle_response, reduceIte]
        refine ⟨trivial, fun _ => hsession', by simp [hcu], ?_⟩
        intro d r hok
        have hd : d = desc := by
          have := Except.ok.inj hok
          exact (congrArg Prod.fst this).symm
        rw [hd]
        exact hdesc

/-- Claim C9 witness: a concrete read-only invocation leaves the store as
it was, keeps the loaded session, and its request carries the merged
headers of that session. -/
theorem claim_C9_witness :
    ((runInvocation false false true none none none (some "example.com") []
        (some "n") [] (fun _ => none) (fun _ => .ok ⟨200, [], ""⟩)).2.2 = []) ∧
    ((runInvocation false false true none none none (some "example.com") []
        (some "n") [] (fun _ => none) (fun _ => .ok ⟨200, [], ""⟩)).2.1 =
      (some "n").map fun n =>
        get_or_create [] n (extractHost (rawUrlOf none (some "example.com")))) :=
  ⟨(claim_C9 false false none none none (some "example.com") [] (some "n") []
      (fun _ => none) (fun _ => .ok ⟨200, [], ""⟩)).1,
   (claim_C9 false false none none none (some "example.com") [] (some "n") []
      (fun _ => none) (fun _ => .ok ⟨200, [], ""⟩)).2.1 rfl⟩

/-- Claim C10: when an invocation returns an error the session file store
is unchanged; the store changes only when a response was received and
handled in a non-read-only invocation. -/
theorem claim_C10 (form secure read_only : Bool) (auth token : Option String)
    (cmd : Option Method) (url : Option String) (params : List Parameter)
    (sname : Option String) (st : Store) (fs : FileSystem) (transport : Transport) :
    (∀ e, (runInvocation form secure read_only auth token cmd url params sname st fs
        transport).1 = .error e →
      (runInvocation form secure read_only auth token cmd url params sname st fs
        transport).2.2 = st) ∧
    ((runInvocation form secure read_only auth token cmd url params sname st fs
        transport).2.2 ≠ st →
      read_only = false ∧ ∃ out, (runInvocation form secure read_only auth token cmd url
        params sname st fs transport).1 = .ok out) := by
  unfold runInvocation
  cases hcu : (cmd.isNone && url.isNone) with
  | true =>
    simp
  | false =>
    simp only [Bool.false_eq_true, if_false, reduceIte]
    cases hA : assembleRequest form secure (!read_only) auth token
        (sname.map fun n => get_or_create st n (extractHost (rawUrlOf cmd url)))
        (chooseMethod cmd params) (rawUrlOf cmd url) (paramsOf cmd params) fs with
    | error e =>
      simp
    | ok pr =>
      obtain ⟨desc, session'⟩ := pr
      dsimp only
      cases hT : transport desc with
      | error e =>
        simp
      | ok resp =>
        dsimp only
        cases hro : read_only with
        | true =>
          simp [handle_response]
        | false =>
          constructor
          · intro e hcontra
            exact Except.noConfusion hcontra
          · intro _
            exact ⟨rfl, (desc, resp), rfl⟩

/-- Claim C10 witness: the missing-URL-and-command error leaves a
nonempty store untouched. -/
theorem claim_C10_witness :
    (runInvocation false false false none none none none [] none
      [("k", Json.null)] (fun _ => none) (fun _ => .ok ⟨200, [], ""⟩)).2.2 =
      [("k", Json.null)] :=
  (claim_C10 false false false none none none none [] none [("k", Json.null)]
    (fun _ => none) (fun _ => .ok ⟨200, [], ""⟩)).1 .MissingUrlAndCommand rfl

end Hurl
